import Mathlib

/-!
Verification of the Sudoku engine of this repository (a 9×9 puzzle
generation, validation and hint engine).  The definitions below are a
shallow embedding of the JavaScript source: grids are lists of rows of
natural numbers (`0` = empty cell), mutation is modelled by functional
update, the RNG is modelled by an explicit stream of drawn values, and
recursion that is unbounded in the source carries an explicit fuel
parameter (theorems quantify over all fuel values).
-/

namespace Sudoku

/-- A grid is a list of rows; each row a list of cell values.
The game always works with 9×9 grids of values in `[0,9]`. -/
abbrev Grid := List (List Nat)

/-- `grid[row][col]` read access; out-of-range reads default to `0`. -/
def cell (g : Grid) (r c : Nat) : Nat := (g.getD r []).getD c 0

/-- `grid[row][col] = v` write access, modelled functionally with `List.set`. -/
def setCell (g : Grid) (r c v : Nat) : Grid := g.set r ((g.getD r []).set c v)

/-- The grid has 9 rows of 9 cells each. -/
def Shape (g : Grid) : Prop := g.length = 9 ∧ ∀ row ∈ g, row.length = 9

/-- The 9×9 all-zeros grid that `generatePuzzle` hands to `generateSolution`. -/
def emptyGrid : Grid := List.replicate 9 (List.replicate 9 0)

theorem getD_set_self {α : Type} (l : List α) (i : Nat) (v d : α) (h : i < l.length) :
    (l.set i v).getD i d = v := by
  induction l generalizing i with
  | nil => simp at h
  | cons a l ih =>
    cases i with
    | zero => simp [List.set, List.getD]
    | succ j =>
      simp only [List.set, List.getD_cons_succ]
      exact ih j (by simpa using h)

theorem getD_set_other {α : Type} (l : List α) (i j : Nat) (v d : α) (h : i ≠ j) :
    (l.set i v).getD j d = l.getD j d := by
  induction l generalizing i j with
  | nil => simp [List.set]
  | cons a l ih =>
    cases i with
    | zero =>
      cases j with
      | zero => exact absurd rfl h
      | succ j2 => simp [List.set, List.getD]
    | succ i2 =>
      cases j with
      | zero => simp [List.set, List.getD]
      | succ j2 =>
        simp only [List.set, List.getD_cons_succ]
        exact ih i2 j2 (by omega)

theorem cell_setCell_self (g : Grid) (r c v : Nat) (hs : Shape g)
    (hr : r < 9) (hc : c < 9) : cell (setCell g r c v) r c = v := by
  obtain ⟨hlen, hrows⟩ := hs
  unfold cell setCell
  rw [getD_set_self]
  · exact getD_set_self _ _ _ _ (by
      have : (g.getD r []) ∈ g := by
        have : r < g.length := by omega
        rw [List.getD_eq_getElem _ _ this]
        exact List.getElem_mem this
      rw [hrows _ this]; exact hc)
  · omega

theorem cell_setCell_other (g : Grid) (r c v r2 c2 : Nat)
    (h : (r2, c2) ≠ (r, c)) : cell (setCell g r c v) r2 c2 = cell g r2 c2 := by
  unfold cell setCell
  by_cases hrr : r = r2
  · subst hrr
    have hcc : c ≠ c2 := by
      intro hc; exact h (by rw [hc])
    by_cases hlt : r < g.length
    · rw [getD_set_self _ _ _ _ hlt, getD_set_other _ _ _ _ _ hcc]
    · rw [List.set_eq_of_length_le (by omega)]
  · rw [getD_set_other _ _ _ _ _ hrr]

theorem shape_setCell (g : Grid) (r c v : Nat) (hs : Shape g) :
    Shape (setCell g r c v) := by
  obtain ⟨hlen, hrows⟩ := hs
  by_cases hr : r < g.length
  · constructor
    · simp [setCell, hlen]
    · intro row hrow
      unfold setCell at hrow
      rcases List.mem_or_eq_of_mem_set hrow with h | h
      · exact hrows _ h
      · subst h
        simp only [List.length_set]
        apply hrows
        rw [List.getD_eq_getElem _ _ hr]
        exact List.getElem_mem hr
  · unfold setCell
    rw [List.set_eq_of_length_le (by omega)]
    exact ⟨hlen, hrows⟩

theorem shape_emptyGrid : Shape emptyGrid := by
  constructor
  · simp [emptyGrid]
  · intro row hrow
    rw [List.eq_of_mem_replicate hrow]
    simp

theorem getD_replicate {α : Type} (n i : Nat) (a d : α) :
    (List.replicate n a).getD i d = if i < n then a else d := by
  induction n generalizing i with
  | zero => simp [List.replicate]
  | succ m ih =>
    cases i with
    | zero => simp [List.replicate]
    | succ j =>
      simp only [List.replicate, List.getD_cons_succ, ih, Nat.succ_lt_succ_iff]

theorem cell_emptyGrid (r c : Nat) : cell emptyGrid r c = 0 := by
  unfold cell emptyGrid
  rw [getD_replicate]
  by_cases hr : r < 9
  · simp only [hr, if_true]
    rw [getD_replicate]
    simp
  · simp [hr]

/-! ### Solution generator (`generateSolution` / `isValid` in `sudoku.js`) -/

/-- The candidate digits `[1, 2, 3, 4, 5, 6, 7, 8, 9]`. -/
def oneToNine : List Nat := [1, 2, 3, 4, 5, 6, 7, 8, 9]

/-- `isValid(grid, row, col, num)`: no cell of the row, the column, or the
3×3 box already holds `num`. -/
def isValid (g : Grid) (row col num : Nat) : Bool :=
  ((List.range 9).all fun i => cell g row i != num) &&
  ((List.range 9).all fun i => cell g i col != num) &&
  ((List.range 3).all fun i => (List.range 3).all fun j =>
     cell g (row / 3 * 3 + i) (col / 3 * 3 + j) != num)

/-- All 81 coordinates in row-major order, the order in which
`generateSolution` scans for an empty cell. -/
def cellsRowMajor : List (Nat × Nat) :=
  (List.range 9).flatMap fun r => (List.range 9).map fun c => (r, c)

/-- The first cell holding `0` in row-major order, if any. -/
def findEmpty (g : Grid) : Option (Nat × Nat) :=
  cellsRowMajor.find? fun p => cell g p.1 p.2 == 0

/-- The inner candidate loop of `generateSolution`: try each candidate in
order; on a valid placement recurse (`solveF`, the generator at one less
fuel); on failure of the recursion the placement is undone (functionally:
the next candidate is tried on the unchanged grid).  The second component
threads the count of RNG shuffles consumed so far. -/
def tryNums (solveF : Nat → Grid → Option Grid × Nat) (r c : Nat) :
    List Nat → Nat → Grid → Option Grid × Nat
  | [], k, _ => (none, k)
  | n :: ns, k, g =>
    if isValid g r c n then
      match solveF k (setCell g r c n) with
      | (some g2, k2) => (some g2, k2)
      | (none, k2) => tryNums solveF r c ns k2 g
    else tryNums solveF r c ns k g

/-- `generateSolution(grid)`: depth-first backtracking.  `cands k` is the
RNG-shuffled candidate list produced by the `k`-th shuffle (the source
shuffles `[1..9]` with the RNG at every cell visit); `fuel` bounds the
recursion depth, which the source leaves unbounded (every theorem below
quantifies over `fuel`). -/
def solveGo (cands : Nat → List Nat) : Nat → Nat → Grid → Option Grid × Nat
  | 0, k, _ => (none, k)
  | fuel + 1, k, g =>
    match findEmpty g with
    | none => (some g, k)
    | some (r, c) => tryNums (solveGo cands fuel) r c (cands k) (k + 1) g

/-- `generateSolution` invoked on the all-zeros grid, as `generatePuzzle`
does.  Recursion depth from the empty grid is at most 82 frames. -/
def generateSolution (cands : Nat → List Nat) : Option Grid :=
  (solveGo cands 82 0 emptyGrid).1

/-! ### Constraint validator (`isCellConflicting`, `isSolutionValid`,
`checkGameCompletion`) -/

/-- `isCellConflicting(row, col)` from the second build: a non-zero cell
conflicts when another cell of its row, column or 3×3 box holds the same
value. -/
def isCellConflicting (g : Grid) (row col : Nat) : Bool :=
  let val := cell g row col
  if val = 0 then false
  else
    ((List.range 9).any fun i =>
      (decide (i ≠ col) && decide (cell g row i = val)) ||
      (decide (i ≠ row) && decide (cell g i col = val))) ||
    ((List.range 3).any fun i => (List.range 3).any fun j =>
      decide ((row / 3 * 3 + i ≠ row ∨ col / 3 * 3 + j ≠ col)) &&
      decide (cell g (row / 3 * 3 + i) (col / 3 * 3 + j) = val))

/-- The `seen`-set loop of `isSolutionValid`: scan the values, return
`false` on the first value already seen. -/
def scanNoDup (seen : List Nat) : List Nat → Bool
  | [] => true
  | n :: rest => if seen.contains n then false else scanNoDup (n :: seen) rest

/-- The values of row `r`. -/
def rowList (g : Grid) (r : Nat) : List Nat :=
  (List.range 9).map fun c => cell g r c

/-- The values of column `c`. -/
def colList (g : Grid) (c : Nat) : List Nat :=
  (List.range 9).map fun r => cell g r c

/-- The values of the 3×3 box with box coordinates `(bR, bC)`, `bR, bC < 3`. -/
def boxList (g : Grid) (bR bC : Nat) : List Nat :=
  (List.range 3).flatMap fun i => (List.range 3).map fun j =>
    cell g (3 * bR + i) (3 * bC + j)

/-- `isSolutionValid()`: every row, column and 3×3 box passes the
`seen`-set duplicate scan.  Note the source checks only for duplicates,
not for zeros. -/
def isSolutionValid (g : Grid) : Bool :=
  ((List.range 9).all fun r => scanNoDup [] (rowList g r)) &&
  ((List.range 9).all fun c => scanNoDup [] (colList g c)) &&
  ((List.range 3).all fun bR => (List.range 3).all fun bC =>
    scanNoDup [] (boxList g bR bC))

/-- The zero-cell scan at the head of `checkGameCompletion`: `true` iff no
cell of the 9×9 grid is `0`. -/
def gridFilled (g : Grid) : Bool :=
  (List.range 9).all fun r => (List.range 9).all fun c => cell g r c != 0

/-- The completion decision taken by `checkGameCompletion`: it returns
early when any cell is `0`, and otherwise declares the game complete
exactly when `isSolutionValid` holds. -/
def isGridComplete (g : Grid) : Bool :=
  gridFilled g && isSolutionValid g

/-! ### Hint selector (`grantHint`) -/

/-- The `emptyCells` list built by `grantHint`: all zero-valued
coordinates in row-major order. -/
def emptyCellsList (g : Grid) : List (Nat × Nat) :=
  cellsRowMajor.filter fun p => cell g p.1 p.2 == 0

/-- `Math.floor(x * n)` for an RNG value `x ∈ [0,1)`. -/
def hintIndex (x : ℚ) (n : Nat) : Nat := (⌊x * (n : ℚ)⌋).toNat

/-- The `randomCell` drawn by `grantHint`. -/
def hintCell (g : Grid) (x : ℚ) : Nat × Nat :=
  (emptyCellsList g).getD (hintIndex x (emptyCellsList g).length) (0, 0)

/-- `grantHint()`: collect the empty cells; if none, show the
"no empty cells" message and leave the grid alone (first component
`none`); otherwise pick index `Math.floor(random() * length)` — the RNG
value `x ∈ [0,1)` is an explicit parameter — and write the solution's
value into that cell (`this.grid[row][col] = this.solution[row][col]`).
Returns the revealed `((row, col), value)` (if any) together with the
grid after the call. -/
def grantHint (g sol : Grid) (x : ℚ) : Option ((Nat × Nat) × Nat) × Grid :=
  if (emptyCellsList g).isEmpty then (none, g)
  else
    (some (hintCell g x, cell sol (hintCell g x).1 (hintCell g x).2),
     setCell g (hintCell g x).1 (hintCell g x).2
       (cell sol (hintCell g x).1 (hintCell g x).2))

/-! ### Puzzle carver (`generatePuzzle`) -/

/-- `difficulty === 'easy' ? 40 : difficulty === 'medium' ? 50 : 60`. -/
def cellsToRemove (difficulty : String) : Nat :=
  if difficulty = "easy" then 40 else if difficulty = "medium" then 50 else 60

/-- The carving loop of `generatePuzzle`: while fewer than `target` cells
are removed, draw a coordinate (`draws k` is the `k`-th pair of RNG
draws, each in `[0,9)`); clear it and record its key when it is non-zero
and not yet recorded, else redraw.  `fuel` bounds the number of
iterations of the source's unbounded `while`; `none` means the fuel ran
out before the target was met. -/
def carveLoop (target : Nat) (draws : Nat → Nat × Nat) :
    Nat → Nat → Grid → List (Nat × Nat) → Nat → Option (Grid × List (Nat × Nat))
  | 0, _, g, ks, removed => if removed < target then none else some (g, ks)
  | fuel + 1, k, g, ks, removed =>
    if removed < target then
      let rc := draws k
      if cell g rc.1 rc.2 ≠ 0 ∧ rc ∉ ks then
        carveLoop target draws fuel (k + 1) (setCell g rc.1 rc.2 0) (rc :: ks) (removed + 1)
      else
        carveLoop target draws fuel (k + 1) g ks removed
    else some (g, ks)

/-- The carving step of `generatePuzzle` applied to a copy of the
solution: remove `cellsToRemove difficulty` cells, starting from no
removals. -/
def generatePuzzleCarve (difficulty : String) (solution : Grid)
    (draws : Nat → Nat × Nat) (fuel : Nat) : Option (Grid × List (Nat × Nat)) :=
  carveLoop (cellsToRemove difficulty) draws fuel 0 solution [] 0

/-! ### Date seeding (`getDailySeed`) -/

/-- One step of the hash loop: `hash = (hash * 31 + charCode) >>> 0`.
The intermediate `hash * 31 + code` stays below `2^37 < 2^53`, so the
JavaScript float arithmetic is exact and `>>> 0` is reduction mod `2^32`. -/
def hashStep (h : Nat) (c : Char) : Nat := (h * 31 + c.toNat) % 4294967296

/-- The index loop of `getDailySeed`:
`for (i = 0; i < s.length; i++) hash = (hash * 31 + s.charCodeAt(i)) >>> 0`.
For the ASCII date strings the function is applied to, `charCodeAt`
(a UTF-16 unit) agrees with `Char.toNat`. -/
def getDailySeedLoop (s : List Char) (i : Nat) (hash : Nat) : Nat :=
  if i < s.length then getDailySeedLoop s (i + 1) (hashStep hash (s.getD i (Char.ofNat 0)))
  else hash
termination_by s.length - i

/-- `getDailySeed` applied to an arbitrary date string (the source fixes
the string to today's ISO date; the hash itself is a function of the
string). -/
def getDailySeedOf (s : String) : Nat := getDailySeedLoop s.data 0 0

/-- Modelled from the spec: `seedFromDateString` as the spec's words
describe it — fold `hash = hash*31 + charCode`, unsigned-wrapped, over
the characters in order, starting from 0. -/
def seedFromDateStringSpec (s : String) : Nat := s.data.foldl hashStep 0

/-! ### A concrete valid solution grid, used as witness input -/

/-- A valid complete Sudoku grid (`value (r, c) = (3*(r%3) + r/3 + c) % 9 + 1`),
used to drive concrete witness runs of the generator, the carver and the
hint selector. -/
def patternGrid : Grid :=
  [[1, 2, 3, 4, 5, 6, 7, 8, 9],
   [4, 5, 6, 7, 8, 9, 1, 2, 3],
   [7, 8, 9, 1, 2, 3, 4, 5, 6],
   [2, 3, 4, 5, 6, 7, 8, 9, 1],
   [5, 6, 7, 8, 9, 1, 2, 3, 4],
   [8, 9, 1, 2, 3, 4, 5, 6, 7],
   [3, 4, 5, 6, 7, 8, 9, 1, 2],
   [6, 7, 8, 9, 1, 2, 3, 4, 5],
   [9, 1, 2, 3, 4, 5, 6, 7, 8]]

/-- Put `d` at the head of the candidate list (used to build a
backtracking-free candidate stream for witness runs). -/
def moveFront (d : Nat) (l : List Nat) : List Nat :=
  if l.contains d then d :: l.erase d else l

/-- A candidate stream whose `k`-th shuffle leads the digit of
`patternGrid` at the `k`-th row-major cell: the witness generator run
accepts the first candidate at every cell and returns `patternGrid`. -/
def patternCands (k : Nat) : List Nat :=
  moveFront (cell patternGrid (k / 9) (k % 9)) oneToNine

/-- The coordinate stream `k ↦ (k / 9 % 9, k % 9)`: sweeps the 81 cells
in row-major order, repeatedly; every coordinate occurs infinitely often. -/
def sweepDraws (k : Nat) : Nat × Nat := (k / 9 % 9, k % 9)

/-! ### Characterisation lemmas for the generator -/

theorem mem_cellsRowMajor (p : Nat × Nat) : p ∈ cellsRowMajor ↔ p.1 < 9 ∧ p.2 < 9 := by
  cases p with
  | mk a b =>
    simp only [cellsRowMajor, List.mem_flatMap, List.mem_map, List.mem_range, Prod.mk.injEq]
    constructor
    · rintro ⟨r, hr, c, hc, h1, h2⟩
      subst h1; subst h2; exact ⟨hr, hc⟩
    · rintro ⟨h1, h2⟩
      exact ⟨a, h1, b, h2, rfl, rfl⟩

theorem findEmpty_eq_some {g : Grid} {r c : Nat} (h : findEmpty g = some (r, c)) :
    r < 9 ∧ c < 9 ∧ cell g r c = 0 := by
  have hm := List.mem_of_find?_eq_some h
  have hp := List.find?_some h
  rw [mem_cellsRowMajor] at hm
  simp only [beq_iff_eq] at hp
  exact ⟨hm.1, hm.2, hp⟩

theorem findEmpty_eq_none {g : Grid} (h : findEmpty g = none) :
    ∀ r c, r < 9 → c < 9 → cell g r c ≠ 0 := by
  intro r c hr hc
  have := List.find?_eq_none.mp h (r, c) ((mem_cellsRowMajor _).mpr ⟨hr, hc⟩)
  simpa using this

theorem isValid_eq_true_iff (g : Grid) (row col num : Nat) :
    isValid g row col num = true ↔
      (∀ i, i < 9 → cell g row i ≠ num) ∧ (∀ i, i < 9 → cell g i col ≠ num) ∧
      (∀ i j, i < 3 → j < 3 → cell g (row / 3 * 3 + i) (col / 3 * 3 + j) ≠ num) := by
  simp only [isValid, Bool.and_eq_true, List.all_eq_true, List.mem_range, bne_iff_ne, ne_eq]
  constructor
  · rintro ⟨⟨h1, h2⟩, h3⟩
    exact ⟨fun i hi => h1 i hi, fun i hi => h2 i hi, fun i j hi hj => h3 i hi j hj⟩
  · rintro ⟨h1, h2, h3⟩
    exact ⟨⟨fun i hi => h1 i hi, fun i hi => h2 i hi⟩, fun i hi j hj => h3 i j hi hj⟩

/-- Two coordinates share a row, a column or a 3×3 box. -/
def SameUnit (p q : Nat × Nat) : Prop :=
  p.1 = q.1 ∨ p.2 = q.2 ∨ (p.1 / 3 = q.1 / 3 ∧ p.2 / 3 = q.2 / 3)

/-- No two distinct cells of a shared unit hold the same non-zero value. -/
def NoConfl (g : Grid) : Prop :=
  ∀ p q : Nat × Nat, p.1 < 9 → p.2 < 9 → q.1 < 9 → q.2 < 9 → p ≠ q →
    SameUnit p q → cell g p.1 p.2 ≠ 0 → cell g p.1 p.2 ≠ cell g q.1 q.2

/-- All in-range cells hold values at most 9. -/
def InRange (g : Grid) : Prop :=
  ∀ r c, r < 9 → c < 9 → cell g r c ≤ 9

theorem noConfl_emptyGrid : NoConfl emptyGrid := by
  intro p q _ _ _ _ _ _ hpz
  exact absurd (cell_emptyGrid p.1 p.2) hpz

theorem inRange_emptyGrid : InRange emptyGrid := by
  intro r c _ _
  rw [cell_emptyGrid]
  omega

theorem inRange_setCell {g : Grid} {r c n : Nat} (hir : InRange g) (hn : n ≤ 9) :
    InRange (setCell g r c n) := by
  intro r2 c2 hr2 hc2
  by_cases h : (r2, c2) = (r, c)
  · obtain ⟨h1, h2⟩ := Prod.mk.injEq .. ▸ h
    subst h1; subst h2
    by_cases hsh : r2 < g.length ∧ c2 < (g.getD r2 []).length
    · unfold cell setCell
      rw [getD_set_self _ _ _ _ hsh.1, getD_set_self _ _ _ _ hsh.2]
      exact hn
    · unfold cell setCell
      rcases Nat.lt_or_ge r2 g.length with hlt | hge
      · have hc2' : (g.getD r2 []).length ≤ c2 := by
          rcases Nat.lt_or_ge c2 (g.getD r2 []).length with h1 | h1
          · exact absurd ⟨hlt, h1⟩ hsh
          · exact h1
        rw [getD_set_self _ _ _ _ hlt, List.getD_eq_default _ _ (by simpa using hc2')]
        omega
      · rw [List.set_eq_of_length_le hge]
        exact hir r2 c2 hr2 hc2
  · rw [cell_setCell_other _ _ _ _ _ _ h]
    exact hir r2 c2 hr2 hc2

theorem noConfl_setCell {g : Grid} {r c n : Nat} (hs : Shape g) (hr : r < 9) (hc : c < 9)
    (hg : NoConfl g) (hv : isValid g r c n = true) : NoConfl (setCell g r c n) := by
  rw [isValid_eq_true_iff] at hv
  obtain ⟨hvrow, hvcol, hvbox⟩ := hv
  have hbox : ∀ a b : Nat, a < 9 → b < 9 → a / 3 = r / 3 → b / 3 = c / 3 →
      cell g a b ≠ n := by
    intro a b ha hb hab1 hab2
    have h1 : a = r / 3 * 3 + (a - r / 3 * 3) := by omega
    have h2 : b = c / 3 * 3 + (b - c / 3 * 3) := by omega
    rw [h1, h2]
    exact hvbox _ _ (by omega) (by omega)
  intro p q hp1 hp2 hq1 hq2 hpq hsu hpz
  by_cases hpe : p = (r, c)
  · subst hpe
    have hqe : q ≠ (r, c) := fun h => hpq (h ▸ rfl)
    rw [cell_setCell_other _ _ _ _ _ _ hqe, cell_setCell_self _ _ _ _ hs hr hc]
    rcases hsu with h | h | h
    · exact fun he => hvrow q.2 hq2 (by
        have h2 : q.1 = r := by simpa using h.symm
        rw [← h2]; exact he.symm)
    · exact fun he => hvcol q.1 hq1 (by
        have h2 : q.2 = c := by simpa using h.symm
        rw [← h2]; exact he.symm)
    · exact fun he => hbox q.1 q.2 hq1 hq2 (by simpa using h.1.symm) (by simpa using h.2.symm) he.symm
  · rw [cell_setCell_other _ _ _ _ _ _ hpe]
    by_cases hqe : q = (r, c)
    · subst hqe
      rw [cell_setCell_self _ _ _ _ hs hr hc]
      intro hpz2
      rcases hsu with h | h | h
      · exact hvrow p.2 hp2 (by
          have h2 : p.1 = r := by simpa using h
          rw [← h2]; exact hpz2) |>.elim
      · exact hvcol p.1 hp1 (by
          have h2 : p.2 = c := by simpa using h
          rw [← h2]; exact hpz2) |>.elim
      · exact (hbox p.1 p.2 hp1 hp2 (by simpa using h.1) (by simpa using h.2) hpz2).elim
    · rw [cell_setCell_other _ _ _ _ _ _ hqe]
      exact hg p q hp1 hp2 hq1 hq2 hpq hsu (by
        rw [cell_setCell_other _ _ _ _ _ _ hpe] at hpz
        exact hpz)

theorem tryNums_invariant (cands : Nat → List Nat) (fuel : Nat)
    (ih : ∀ k g g' k2, Shape g → InRange g → NoConfl g →
      solveGo cands fuel k g = (some g', k2) →
      Shape g' ∧ InRange g' ∧ NoConfl g' ∧ findEmpty g' = none)
    (r c : Nat) (hr : r < 9) (hc : c < 9) :
    ∀ l : List Nat, (∀ n ∈ l, n ≤ 9) → ∀ k g g' k2, Shape g → InRange g → NoConfl g →
      tryNums (solveGo cands fuel) r c l k g = (some g', k2) →
      Shape g' ∧ InRange g' ∧ NoConfl g' ∧ findEmpty g' = none := by
  intro l
  induction l with
  | nil =>
    intro _ k g g' k2 _ _ _ h
    simp [tryNums] at h
  | cons n ns ihl =>
    intro hl k g g' k2 hs hir hnc h
    rw [tryNums] at h
    by_cases hv : isValid g r c n = true
    · rw [if_pos hv] at h
      rcases hsg : solveGo cands fuel k (setCell g r c n) with ⟨og, k3⟩
      rw [hsg] at h
      cases og with
      | some g2 =>
        simp only at h
        obtain ⟨hg2, hk⟩ := Prod.mk.injEq .. ▸ h
        have hn9 : n ≤ 9 := hl n (List.mem_cons_self n ns)
        have := ih k (setCell g r c n) g2 k3 (shape_setCell g r c n hs)
          (inRange_setCell hir hn9) (noConfl_setCell hs hr hc hnc hv) hsg
        rw [← Option.some_inj.mp hg2]
        exact this
      | none =>
        simp only at h
        exact ihl (fun m hm => hl m (List.mem_cons_of_mem _ hm)) k3 g g' k2 hs hir hnc h
    · rw [if_neg hv] at h
      exact ihl (fun m hm => hl m (List.mem_cons_of_mem _ hm)) k g g' k2 hs hir hnc h

theorem solveGo_invariant (cands : Nat → List Nat)
    (hcands : ∀ k, ∀ n ∈ cands k, n ≤ 9) :
    ∀ fuel k g g' k2, Shape g → InRange g → NoConfl g →
      solveGo cands fuel k g = (some g', k2) →
      Shape g' ∧ InRange g' ∧ NoConfl g' ∧ findEmpty g' = none := by
  intro fuel
  induction fuel with
  | zero =>
    intro k g g' k2 _ _ _ h
    simp [solveGo] at h
  | succ fuel ih =>
    intro k g g' k2 hs hir hnc h
    rw [solveGo] at h
    rcases hfe : findEmpty g with _ | ⟨r, c⟩
    · rw [hfe] at h
      simp only at h
      obtain ⟨h1, _⟩ := Prod.mk.injEq .. ▸ h
      rw [← Option.some_inj.mp h1]
      exact ⟨hs, hir, hnc, hfe⟩
    · rw [hfe] at h
      obtain ⟨hr9, hc9, _⟩ := findEmpty_eq_some hfe
      exact tryNums_invariant cands fuel ih r c hr9 hc9 (cands k) (hcands k)
        (k + 1) g g' k2 hs hir hnc h

theorem perm_oneToNine_of {l : List Nat} (hlen : l.length = 9) (hnd : l.Nodup)
    (hsub : ∀ x ∈ l, 1 ≤ x ∧ x ≤ 9) : l.Perm oneToNine := by
  have hsub2 : l ⊆ oneToNine := by
    intro x hx
    have hb := hsub x hx
    simp only [oneToNine, List.mem_cons, List.not_mem_nil, or_false]
    omega
  exact (List.subperm_of_subset hnd hsub2).perm_of_length_le (by simp [oneToNine, hlen])

theorem rowList_nodup {g : Grid} {r : Nat} (hr : r < 9) (hnc : NoConfl g)
    (hnz : ∀ a b, a < 9 → b < 9 → cell g a b ≠ 0) : (rowList g r).Nodup := by
  refine List.Nodup.map_on ?_ (List.nodup_range 9)
  intro i hi j hj hfe
  rw [List.mem_range] at hi hj
  by_contra hne
  exact hnc (r, i) (r, j) hr hi hr hj
    (fun hpq => hne (by simpa using hpq)) (Or.inl rfl) (hnz r i hr hi) hfe

theorem colList_nodup {g : Grid} {c : Nat} (hc : c < 9) (hnc : NoConfl g)
    (hnz : ∀ a b, a < 9 → b < 9 → cell g a b ≠ 0) : (colList g c).Nodup := by
  refine List.Nodup.map_on ?_ (List.nodup_range 9)
  intro i hi j hj hfe
  rw [List.mem_range] at hi hj
  by_contra hne
  exact hnc (i, c) (j, c) hi hc hj hc
    (fun hpq => hne (by simpa using hpq)) (Or.inr (Or.inl rfl)) (hnz i c hi hc) hfe

/-- The nine `(i, j)` offsets of a 3×3 box. -/
def boxPairs : List (Nat × Nat) :=
  (List.range 3).flatMap fun i => (List.range 3).map fun j => (i, j)

theorem boxList_eq_map (g : Grid) (bR bC : Nat) :
    boxList g bR bC = boxPairs.map fun p => cell g (3 * bR + p.1) (3 * bC + p.2) := by
  simp only [boxList, boxPairs, List.map_flatMap, List.map_map]
  rfl

theorem mem_boxPairs (p : Nat × Nat) : p ∈ boxPairs ↔ p.1 < 3 ∧ p.2 < 3 := by
  cases p with
  | mk a b =>
    simp only [boxPairs, List.mem_flatMap, List.mem_map, List.mem_range, Prod.mk.injEq]
    constructor
    · rintro ⟨i, hi, j, hj, h1, h2⟩
      subst h1; subst h2; exact ⟨hi, hj⟩
    · rintro ⟨h1, h2⟩
      exact ⟨a, h1, b, h2, rfl, rfl⟩

theorem boxList_nodup {g : Grid} {bR bC : Nat} (hbR : bR < 3) (hbC : bC < 3)
    (hnc : NoConfl g) (hnz : ∀ a b, a < 9 → b < 9 → cell g a b ≠ 0) :
    (boxList g bR bC).Nodup := by
  rw [boxList_eq_map]
  refine List.Nodup.map_on ?_ (by decide)
  intro p hp q hq hfe
  rw [mem_boxPairs] at hp hq
  by_contra hne
  refine hnc (3 * bR + p.1, 3 * bC + p.2) (3 * bR + q.1, 3 * bC + q.2)
    (by omega) (by omega) (by omega) (by omega)
    ?_ (Or.inr (Or.inr ⟨by simp; omega, by simp; omega⟩))
    (hnz _ _ (by omega) (by omega)) hfe
  intro hpq
  rw [Prod.mk.injEq] at hpq
  apply hne
  cases p; cases q
  simp only [Prod.mk.injEq]
  omega

theorem solved_grid_perms {g : Grid} (hir : InRange g) (hnc : NoConfl g)
    (hfe : findEmpty g = none) :
    (∀ r, r < 9 → (rowList g r).Perm oneToNine) ∧
    (∀ c, c < 9 → (colList g c).Perm oneToNine) ∧
    (∀ bR bC, bR < 3 → bC < 3 → (boxList g bR bC).Perm oneToNine) ∧
    (∀ r c, r < 9 → c < 9 → cell g r c ≠ 0) := by
  have hnz := findEmpty_eq_none hfe
  refine ⟨?_, ?_, ?_, hnz⟩
  · intro r hr
    refine perm_oneToNine_of (by simp [rowList]) (rowList_nodup hr hnc hnz) ?_
    intro x hx
    simp only [rowList, List.mem_map, List.mem_range] at hx
    obtain ⟨c, hc, hcx⟩ := hx
    have h1 := hnz r c hr hc
    have h2 := hir r c hr hc
    omega
  · intro c hc
    refine perm_oneToNine_of (by simp [colList]) (colList_nodup hc hnc hnz) ?_
    intro x hx
    simp only [colList, List.mem_map, List.mem_range] at hx
    obtain ⟨r, hr, hrx⟩ := hx
    have h1 := hnz r c hr hc
    have h2 := hir r c hr hc
    omega
  · intro bR bC hbR hbC
    refine perm_oneToNine_of ?_ (boxList_nodup hbR hbC hnc hnz) ?_
    · rw [boxList_eq_map, List.length_map]; rfl
    · intro x hx
      rw [boxList_eq_map] at hx
      simp only [List.mem_map] at hx
      obtain ⟨p, hp, hpx⟩ := hx
      rw [mem_boxPairs] at hp
      have h1 := hnz (3 * bR + p.1) (3 * bC + p.2) (by omega) (by omega)
      have h2 := hir (3 * bR + p.1) (3 * bC + p.2) (by omega) (by omega)
      omega

theorem mem_oneToNine_le {n : Nat} (h : n ∈ oneToNine) : n ≤ 9 := by
  simp only [oneToNine, List.mem_cons, List.not_mem_nil, or_false] at h
  omega

theorem patternCands_perm (k : Nat) : (patternCands k).Perm oneToNine := by
  unfold patternCands moveFront
  by_cases h : oneToNine.contains (cell patternGrid (k / 9) (k % 9))
  · rw [if_pos h]
    exact (List.perm_cons_erase (by simpa using h)).symm
  · rw [if_neg h]

/-- C1: for every grid returned by the backtracking generator invoked on
the all-zeros 9×9 grid — whenever `solveGo` (the model of
`generateSolution`, at any recursion budget `fuel`; `generateSolution`
is the instance `fuel = 82`) returns success — every row, every column
and every 3×3 box of the resulting grid is a permutation of
`{1,...,9}`, and no cell is `0`.  The hypothesis on `cands` records
what the source's RNG shuffle guarantees: each candidate list is a
permutation of `[1,...,9]`. -/
theorem c1_generateSolution_rows_cols_boxes_perm (cands : Nat → List Nat)
    (hcands : ∀ n, (cands n).Perm oneToNine) (fuel : Nat) (g' : Grid)
    (h : (solveGo cands fuel 0 emptyGrid).1 = some g') :
    (∀ r, r < 9 → (rowList g' r).Perm oneToNine) ∧
    (∀ c, c < 9 → (colList g' c).Perm oneToNine) ∧
    (∀ bR bC, bR < 3 → bC < 3 → (boxList g' bR bC).Perm oneToNine) ∧
    (∀ r c, r < 9 → c < 9 → cell g' r c ≠ 0) := by
  rcases hsg : solveGo cands fuel 0 emptyGrid with ⟨og, k2⟩
  rw [hsg] at h
  simp only at h
  subst h
  have hinv := solveGo_invariant cands
    (fun k n hn => mem_oneToNine_le ((hcands k).mem_iff.mp hn)) fuel 0 emptyGrid g' k2
    shape_emptyGrid inRange_emptyGrid noConfl_emptyGrid hsg
  exact solved_grid_perms hinv.2.1 hinv.2.2.1 hinv.2.2.2

set_option maxRecDepth 100000 in
/-- Witness for C1: the concrete candidate stream `patternCands` drives
the generator to success on the all-zeros grid, returning `patternGrid`,
whose rows, columns and boxes are permutations of `{1,...,9}`. -/
theorem c1_witness :
    (∀ r, r < 9 → (rowList patternGrid r).Perm oneToNine) ∧
    (∀ c, c < 9 → (colList patternGrid c).Perm oneToNine) ∧
    (∀ bR bC, bR < 3 → bC < 3 → (boxList patternGrid bR bC).Perm oneToNine) ∧
    (∀ r c, r < 9 → c < 9 → cell patternGrid r c ≠ 0) :=
  c1_generateSolution_rows_cols_boxes_perm patternCands patternCands_perm 82 patternGrid
    (by decide)

/-! ### The conflict test (C4) -/

/-- Another in-range cell of the same row, column or box holds the same
value as `(row, col)`. -/
def HasDuplicatePeer (g : Grid) (row col : Nat) : Prop :=
  ∃ r c, r < 9 ∧ c < 9 ∧ (r, c) ≠ (row, col) ∧
    (r = row ∨ c = col ∨ (r / 3 = row / 3 ∧ c / 3 = col / 3)) ∧
    cell g r c = cell g row col

theorem isCellConflicting_iff (g : Grid) (row col : Nat) (hr : row < 9) (hc : col < 9) :
    isCellConflicting g row col = true ↔
      cell g row col ≠ 0 ∧ HasDuplicatePeer g row col := by
  unfold isCellConflicting HasDuplicatePeer
  by_cases h0 : cell g row col = 0
  · simp [h0]
  · rw [if_neg h0]
    simp only [Bool.or_eq_true, List.any_eq_true, List.mem_range, Bool.and_eq_true,
      decide_eq_true_eq, ne_eq]
    constructor
    · rintro (⟨i, hi, (⟨hne, heq⟩ | ⟨hne, heq⟩)⟩ | ⟨i, hi, j, hj, hne, heq⟩)
      · refine ⟨h0, row, i, hr, hi, ?_, Or.inl rfl, heq⟩
        simp only [ne_eq, Prod.mk.injEq, not_and]
        intro _; exact hne
      · refine ⟨h0, i, col, hi, hc, ?_, Or.inr (Or.inl rfl), heq⟩
        simp only [ne_eq, Prod.mk.injEq, not_and]
        intro h; exact absurd h hne
      · refine ⟨h0, row / 3 * 3 + i, col / 3 * 3 + j, by omega, by omega, ?_,
          Or.inr (Or.inr ⟨by omega, by omega⟩), heq⟩
        simp only [ne_eq, Prod.mk.injEq, not_and]
        intro h1 h2
        rcases hne with h | h
        · exact h h1
        · exact h h2
    · rintro ⟨-, r, c, hr9, hc9, hne, hunit, heq⟩
      simp only [ne_eq, Prod.mk.injEq, not_and] at hne
      rcases hunit with h | h | h
      · subst h
        left
        refine ⟨c, hc9, Or.inl ⟨?_, heq⟩⟩
        exact hne rfl
      · subst h
        left
        refine ⟨r, hr9, Or.inr ⟨?_, heq⟩⟩
        intro h; exact hne h rfl
      · right
        refine ⟨r - row / 3 * 3, by omega, c - col / 3 * 3, by omega, ?_, ?_⟩
        · have e1 : row / 3 * 3 + (r - row / 3 * 3) = r := by omega
          have e2 : col / 3 * 3 + (c - col / 3 * 3) = c := by omega
          rw [e1, e2]
          by_cases hrw : r = row
          · right; intro hcl; exact hne hrw hcl
          · left; exact hrw
        · have e1 : row / 3 * 3 + (r - row / 3 * 3) = r := by omega
          have e2 : col / 3 * 3 + (c - col / 3 * 3) = c := by omega
          rw [e1, e2]
          exact heq

theorem isCellConflicting_zero (g : Grid) (row col : Nat)
    (h0 : cell g row col = 0) : isCellConflicting g row col = false := by
  unfold isCellConflicting
  simp [h0]

/-- C4: `isCellConflicting(grid, row, col)` is `true` iff the cell is
non-zero and some other cell of the same row, column or 3×3 box holds
the same value; a zero cell is never conflicting; and the test is
symmetric: whenever two distinct same-unit cells share a non-zero
value, both report a conflict. -/
theorem c4_isCellConflicting_spec (g : Grid) (row col : Nat)
    (hr : row < 9) (hc : col < 9) :
    (isCellConflicting g row col = true ↔
      cell g row col ≠ 0 ∧ HasDuplicatePeer g row col) ∧
    (cell g row col = 0 → isCellConflicting g row col = false) ∧
    (∀ r c, r < 9 → c < 9 → (r, c) ≠ (row, col) →
      (r = row ∨ c = col ∨ (r / 3 = row / 3 ∧ c / 3 = col / 3)) →
      cell g r c = cell g row col → cell g row col ≠ 0 →
      isCellConflicting g row col = true ∧ isCellConflicting g r c = true) := by
  refine ⟨isCellConflicting_iff g row col hr hc, isCellConflicting_zero g row col, ?_⟩
  intro r c hr9 hc9 hne hunit heq hnz
  constructor
  · exact (isCellConflicting_iff g row col hr hc).mpr
      ⟨hnz, r, c, hr9, hc9, hne, hunit, heq⟩
  · refine (isCellConflicting_iff g r c hr9 hc9).mpr
      ⟨by rw [heq]; exact hnz, row, col, hr, hc, ?_, ?_, heq.symm⟩
    · exact fun h => hne h.symm
    · rcases hunit with h | h | h
      · exact Or.inl h.symm
      · exact Or.inr (Or.inl h.symm)
      · exact Or.inr (Or.inr ⟨h.1.symm, h.2.symm⟩)

/-- Witness for C4 at a concrete conflicting grid: in `patternGrid` with
cell (0,1) overwritten by 1, cells (0,0) and (0,1) both hold 1 and both
report a conflict; the zero cell of a carved grid reports none. -/
theorem c4_witness :
    isCellConflicting (setCell patternGrid 0 1 1) 0 0 = true ∧
    isCellConflicting (setCell patternGrid 0 1 1) 0 1 = true ∧
    isCellConflicting (setCell patternGrid 0 0 0) 0 0 = false :=
  ⟨((c4_isCellConflicting_spec (setCell patternGrid 0 1 1) 0 0 (by decide) (by decide)).2.2
      0 1 (by decide) (by decide) (by decide) (Or.inl rfl) (by decide) (by decide)).2,
   ((c4_isCellConflicting_spec (setCell patternGrid 0 1 1) 0 1 (by decide) (by decide)).2.2
      0 0 (by decide) (by decide) (by decide) (Or.inl rfl) (by decide) (by decide)).2,
   (c4_isCellConflicting_spec (setCell patternGrid 0 0 0) 0 0 (by decide) (by decide)).2.1
      (by decide)⟩

/-! ### The completion test (C5, C6) -/

theorem scanNoDup_eq_true (seen : List Nat) (l : List Nat) :
    scanNoDup seen l = true ↔ l.Nodup ∧ ∀ x ∈ l, x ∉ seen := by
  induction l generalizing seen with
  | nil =>
    rw [scanNoDup]
    exact ⟨fun _ => ⟨List.nodup_nil, by intro x hx; simp at hx⟩, fun _ => rfl⟩
  | cons n rest ih =>
    rw [scanNoDup]
    by_cases hn : n ∈ seen
    · rw [if_pos (by simpa using hn)]
      constructor
      · intro h; exact Bool.noConfusion h
      · rintro ⟨-, hall⟩
        exact absurd hn (hall n (List.mem_cons_self n rest))
    · rw [if_neg (by simpa using hn), ih]
      constructor
      · rintro ⟨hnd, hall⟩
        refine ⟨List.nodup_cons.mpr ⟨?_, hnd⟩, ?_⟩
        · intro hmem
          exact (hall n hmem) (List.mem_cons_self n seen)
        · intro x hx
          rcases List.mem_cons.mp hx with h | h
          · subst h; exact hn
          · intro hxs
            exact (hall x h) (List.mem_cons_of_mem _ hxs)
      · rintro ⟨hnd, hall⟩
        obtain ⟨hn_rest, hnd_rest⟩ := List.nodup_cons.mp hnd
        refine ⟨hnd_rest, ?_⟩
        intro x hx hxns
        rcases List.mem_cons.mp hxns with h | h
        · subst h; exact hn_rest hx
        · exact (hall x (List.mem_cons_of_mem _ hx)) h

theorem scanNoDup_nil_iff (l : List Nat) : scanNoDup [] l = true ↔ l.Nodup := by
  rw [scanNoDup_eq_true]
  simp

theorem isSolutionValid_iff (g : Grid) :
    isSolutionValid g = true ↔
      (∀ r, r < 9 → (rowList g r).Nodup) ∧ (∀ c, c < 9 → (colList g c).Nodup) ∧
      (∀ bR bC, bR < 3 → bC < 3 → (boxList g bR bC).Nodup) := by
  simp only [isSolutionValid, Bool.and_eq_true, List.all_eq_true, List.mem_range,
    scanNoDup_nil_iff]
  constructor
  · rintro ⟨⟨h1, h2⟩, h3⟩
    exact ⟨h1, h2, fun bR bC hbR hbC => h3 bR hbR bC hbC⟩
  · rintro ⟨h1, h2, h3⟩
    exact ⟨⟨h1, h2⟩, fun bR hbR bC hbC => h3 bR bC hbR hbC⟩

theorem gridFilled_iff (g : Grid) :
    gridFilled g = true ↔ ∀ r c, r < 9 → c < 9 → cell g r c ≠ 0 := by
  simp only [gridFilled, List.all_eq_true, List.mem_range, bne_iff_ne, ne_eq]
  exact ⟨fun h r c hr hc => h r hr c hc, fun h r hr c hc => h r c hr hc⟩

theorem rowList_nodup_iff (g : Grid) (r : Nat) :
    (rowList g r).Nodup ↔ ∀ i j, i < 9 → j < 9 → i ≠ j → cell g r i ≠ cell g r j := by
  rw [rowList, List.nodup_map_iff_inj_on (List.nodup_range 9)]
  constructor
  · intro h i j hi hj hij heq
    exact hij (h i (List.mem_range.mpr hi) j (List.mem_range.mpr hj) heq)
  · intro h i hi j hj heq
    by_contra hij
    exact h i j (List.mem_range.mp hi) (List.mem_range.mp hj) hij heq

theorem colList_nodup_iff (g : Grid) (c : Nat) :
    (colList g c).Nodup ↔ ∀ i j, i < 9 → j < 9 → i ≠ j → cell g i c ≠ cell g j c := by
  rw [colList, List.nodup_map_iff_inj_on (List.nodup_range 9)]
  constructor
  · intro h i j hi hj hij heq
    exact hij (h i (List.mem_range.mpr hi) j (List.mem_range.mpr hj) heq)
  · intro h i hi j hj heq
    by_contra hij
    exact h i j (List.mem_range.mp hi) (List.mem_range.mp hj) hij heq

theorem boxList_nodup_iff (g : Grid) (bR bC : Nat) :
    (boxList g bR bC).Nodup ↔
      ∀ p q : Nat × Nat, p.1 < 3 → p.2 < 3 → q.1 < 3 → q.2 < 3 → p ≠ q →
        cell g (3 * bR + p.1) (3 * bC + p.2) ≠ cell g (3 * bR + q.1) (3 * bC + q.2) := by
  rw [boxList_eq_map, List.nodup_map_iff_inj_on (by decide)]
  constructor
  · intro h p q hp1 hp2 hq1 hq2 hpq heq
    exact hpq (h p ((mem_boxPairs p).mpr ⟨hp1, hp2⟩) q ((mem_boxPairs q).mpr ⟨hq1, hq2⟩) heq)
  · intro h p hp q hq heq
    by_contra hpq
    obtain ⟨hp1, hp2⟩ := (mem_boxPairs p).mp hp
    obtain ⟨hq1, hq2⟩ := (mem_boxPairs q).mp hq
    exact h p q hp1 hp2 hq1 hq2 hpq heq

theorem cell_mem_rowList (g : Grid) (r c : Nat) (hc : c < 9) :
    cell g r c ∈ rowList g r :=
  List.mem_map_of_mem _ (List.mem_range.mpr hc)

/-- C5 counterexample: the claim says the completion test "implemented as
`isSolutionValid`" returns `false` for every grid containing a zero cell;
but `isSolutionValid` only scans for duplicates, and accepts
`patternGrid` with cell (0,0) blanked to `0`. -/
theorem c5_counterexample :
    isSolutionValid (setCell patternGrid 0 0 0) = true ∧
    cell (setCell patternGrid 0 0 0) 0 0 = 0 := by
  constructor
  · decide
  · decide

/-- C5 (amended): the completion decision actually taken by
`checkGameCompletion` — an explicit scan rejecting any zero cell,
followed by `isSolutionValid` — is `true` exactly when every row, column
and 3×3 box is a permutation of 1–9, and is `false` for every grid (of
values ≤ 9) containing a zero cell.  `isSolutionValid` alone checks only
duplicates. -/
theorem c5_isGridComplete_correct (g : Grid) (hir : InRange g) :
    (isGridComplete g = true ↔
      (∀ r, r < 9 → (rowList g r).Perm oneToNine) ∧
      (∀ c, c < 9 → (colList g c).Perm oneToNine) ∧
      (∀ bR bC, bR < 3 → bC < 3 → (boxList g bR bC).Perm oneToNine)) ∧
    (∀ r c, r < 9 → c < 9 → cell g r c = 0 → isGridComplete g = false) := by
  constructor
  · rw [isGridComplete, Bool.and_eq_true, gridFilled_iff, isSolutionValid_iff]
    constructor
    · rintro ⟨hfill, hrows, hcols, hboxes⟩
      refine ⟨?_, ?_, ?_⟩
      · intro r hr
        refine perm_oneToNine_of (by simp [rowList]) (hrows r hr) ?_
        intro x hx
        simp only [rowList, List.mem_map, List.mem_range] at hx
        obtain ⟨c, hc, hcx⟩ := hx
        have h1 := hfill r c hr hc
        have h2 := hir r c hr hc
        omega
      · intro c hc
        refine perm_oneToNine_of (by simp [colList]) (hcols c hc) ?_
        intro x hx
        simp only [colList, List.mem_map, List.mem_range] at hx
        obtain ⟨r, hr, hrx⟩ := hx
        have h1 := hfill r c hr hc
        have h2 := hir r c hr hc
        omega
      · intro bR bC hbR hbC
        refine perm_oneToNine_of (by rw [boxList_eq_map, List.length_map]; rfl)
          (hboxes bR bC hbR hbC) ?_
        intro x hx
        rw [boxList_eq_map] at hx
        simp only [List.mem_map] at hx
        obtain ⟨p, hp, hpx⟩ := hx
        rw [mem_boxPairs] at hp
        have h1 := hfill (3 * bR + p.1) (3 * bC + p.2) (by omega) (by omega)
        have h2 := hir (3 * bR + p.1) (3 * bC + p.2) (by omega) (by omega)
        omega
    · rintro ⟨hrows, hcols, hboxes⟩
      refine ⟨?_, ?_, ?_, ?_⟩
      · intro r c hr hc h0
        have hmem : (0 : Nat) ∈ rowList g r := h0 ▸ cell_mem_rowList g r c hc
        have : (0 : Nat) ∈ oneToNine := (hrows r hr).mem_iff.mp hmem
        simp [oneToNine] at this
      · intro r hr
        exact (hrows r hr).nodup_iff.mpr (by decide)
      · intro c hc
        exact (hcols c hc).nodup_iff.mpr (by decide)
      · intro bR bC hbR hbC
        exact (hboxes bR bC hbR hbC).nodup_iff.mpr (by decide)
  · intro r c hr hc h0
    rw [Bool.eq_false_iff]
    intro hcompl
    rw [isGridComplete, Bool.and_eq_true] at hcompl
    exact (gridFilled_iff g).mp hcompl.1 r c hr hc h0

theorem patternGrid_bounds :
    ∀ r, r < 9 → ∀ c, c < 9 →
      1 ≤ cell patternGrid r c ∧ cell patternGrid r c ≤ 9 := by
  decide

theorem patternGrid_inRange : InRange patternGrid :=
  fun r c hr hc => (patternGrid_bounds r hr c hc).2

theorem patternGrid_units_perm :
    (∀ r, r < 9 → (rowList patternGrid r).Perm oneToNine) ∧
    (∀ c, c < 9 → (colList patternGrid c).Perm oneToNine) ∧
    (∀ bR bC, bR < 3 → bC < 3 → (boxList patternGrid bR bC).Perm oneToNine) := by
  refine ⟨?_, ?_, ?_⟩
  · intro r hr
    interval_cases r <;> exact perm_oneToNine_of (by decide) (by decide) (by decide)
  · intro c hc
    interval_cases c <;> exact perm_oneToNine_of (by decide) (by decide) (by decide)
  · intro bR bC hbR hbC
    interval_cases bR <;> interval_cases bC <;>
      exact perm_oneToNine_of (by decide) (by decide) (by decide)

/-- Witness for the amended C5: `patternGrid` is declared complete, and
blanking one cell makes the completion decision `false`. -/
theorem c5_witness :
    isGridComplete patternGrid = true ∧
    isGridComplete (setCell patternGrid 0 0 0) = false :=
  ⟨(c5_isGridComplete_correct patternGrid patternGrid_inRange).1.mpr patternGrid_units_perm,
   (c5_isGridComplete_correct (setCell patternGrid 0 0 0)
      (fun r c hr hc => by
        have h := patternGrid_inRange r c hr hc
        by_cases hp : (r, c) = ((0 : Nat), (0 : Nat))
        · have h1 : r = 0 := congrArg Prod.fst hp
          have h2 : c = 0 := congrArg Prod.snd hp
          rw [h1, h2, cell_setCell_self patternGrid 0 0 0 (by constructor <;> decide)
            (by decide) (by decide)]
          omega
        · rw [cell_setCell_other patternGrid 0 0 0 r c hp]
          exact h)).2
     0 0 (by decide) (by decide) (by decide)⟩

/-- C6: for a fully filled grid (all 81 cells hold values 1–9), the
completion decision coincides with `isSolutionValid`, and
`isSolutionValid` is `true` exactly when `isCellConflicting` is `false`
at every coordinate. -/
theorem c6_complete_iff_no_conflict (g : Grid)
    (hfill : ∀ r c, r < 9 → c < 9 → 1 ≤ cell g r c ∧ cell g r c ≤ 9) :
    isGridComplete g = isSolutionValid g ∧
    (isSolutionValid g = true ↔
      ∀ r c, r < 9 → c < 9 → isCellConflicting g r c = false) := by
  constructor
  · rw [isGridComplete,
      (gridFilled_iff g).mpr (fun r c hr hc => by have := hfill r c hr hc; omega),
      Bool.true_and]
  · constructor
    · intro hval
      rw [isSolutionValid_iff] at hval
      obtain ⟨hrows, hcols, hboxes⟩ := hval
      intro r c hr hc
      rw [Bool.eq_false_iff]
      intro hconf
      obtain ⟨hnz, r2, c2, hr2, hc2, hne, hunit, heq⟩ :=
        (isCellConflicting_iff g r c hr hc).mp hconf
      simp only [ne_eq, Prod.mk.injEq, not_and] at hne
      rcases hunit with h | h | h
      · exact (rowList_nodup_iff g r).mp (hrows r hr) c2 c hc2 hc (hne h) (h ▸ heq)
      · exact (colList_nodup_iff g c).mp (hcols c hc) r2 r hr2 hr
          (fun hrr => hne hrr h) (h ▸ heq)
      · refine (boxList_nodup_iff g (r / 3) (c / 3)).mp
          (hboxes (r / 3) (c / 3) (by omega) (by omega))
          (r2 % 3, c2 % 3) (r % 3, c % 3) (by omega) (by omega) (by omega) (by omega)
          ?_ ?_
        · intro hpq
          rw [Prod.mk.injEq] at hpq
          have : r2 = r := by omega
          have : c2 = c := by omega
          exact hne (by omega) (by omega)
        · have e1 : 3 * (r / 3) + r2 % 3 = r2 := by omega
          have e2 : 3 * (c / 3) + c2 % 3 = c2 := by omega
          have e3 : 3 * (r / 3) + r % 3 = r := by omega
          have e4 : 3 * (c / 3) + c % 3 = c := by omega
          simp only [e1, e2, e3, e4]
          exact heq
    · intro hnoc
      rw [isSolutionValid_iff]
      refine ⟨?_, ?_, ?_⟩
      · intro r hr
        rw [rowList_nodup_iff]
        intro i j hi hj hij heq
        have hconf : isCellConflicting g r i = true :=
          (isCellConflicting_iff g r i hr hi).mpr
            ⟨by have := hfill r i hr hi; omega,
             r, j, hr, hj,
             fun hp => hij ((congrArg Prod.snd hp : j = i)).symm,
             Or.inl rfl, heq.symm⟩
        rw [hnoc r i hr hi] at hconf
        exact Bool.noConfusion hconf
      · intro c hc
        rw [colList_nodup_iff]
        intro i j hi hj hij heq
        have hconf : isCellConflicting g i c = true :=
          (isCellConflicting_iff g i c hi hc).mpr
            ⟨by have := hfill i c hi hc; omega,
             j, c, hj, hc,
             fun hp => hij ((congrArg Prod.fst hp : j = i)).symm,
             Or.inr (Or.inl rfl), heq.symm⟩
        rw [hnoc i c hi hc] at hconf
        exact Bool.noConfusion hconf
      · intro bR bC hbR hbC
        rw [boxList_nodup_iff]
        intro p q hp1 hp2 hq1 hq2 hpq heq
        have hconf : isCellConflicting g (3 * bR + p.1) (3 * bC + p.2) = true :=
          (isCellConflicting_iff g (3 * bR + p.1) (3 * bC + p.2) (by omega) (by omega)).mpr
            ⟨by have := hfill (3 * bR + p.1) (3 * bC + p.2) (by omega) (by omega); omega,
             3 * bR + q.1, 3 * bC + q.2, by omega, by omega,
             fun hp => hpq (by
                have h1 : 3 * bR + q.1 = 3 * bR + p.1 := congrArg Prod.fst hp
                have h2 : 3 * bC + q.2 = 3 * bC + p.2 := congrArg Prod.snd hp
                cases p; cases q
                simp only [Prod.mk.injEq]
                omega),
             Or.inr (Or.inr ⟨by omega, by omega⟩), heq.symm⟩
        rw [hnoc (3 * bR + p.1) (3 * bC + p.2) (by omega) (by omega)] at hconf
        exact Bool.noConfusion hconf

/-- Witness for C6 at `patternGrid`: fully filled and valid, so no cell
reports a conflict. -/
theorem c6_witness : isCellConflicting patternGrid 0 0 = false :=
  (c6_complete_iff_no_conflict patternGrid
      (fun r c hr hc => patternGrid_bounds r hr c hc)).2.mp
    (by decide) 0 0 (by decide) (by decide)

/-! ### The hint selector (C3, C7) -/

theorem mem_emptyCellsList {g : Grid} {p : Nat × Nat} :
    p ∈ emptyCellsList g ↔ p.1 < 9 ∧ p.2 < 9 ∧ cell g p.1 p.2 = 0 := by
  rw [emptyCellsList, List.mem_filter, mem_cellsRowMajor]
  simp only [beq_iff_eq]
  tauto

theorem floor_mul_lt {x : ℚ} (hx0 : 0 ≤ x) (hx1 : x < 1) {n : Nat} (hn : 0 < n) :
    (⌊x * (n : ℚ)⌋).toNat < n := by
  have h1 : (0 : ℚ) ≤ x * (n : ℚ) := mul_nonneg hx0 (by positivity)
  have h2 : x * (n : ℚ) < (n : ℚ) := by
    calc x * (n : ℚ) < 1 * (n : ℚ) :=
          mul_lt_mul_of_pos_right hx1 (by exact_mod_cast hn)
    _ = (n : ℚ) := one_mul _
  have h3 : 0 ≤ ⌊x * (n : ℚ)⌋ := Int.floor_nonneg.mpr h1
  have h4 : ⌊x * (n : ℚ)⌋ < (n : ℤ) := Int.floor_lt.mpr (by exact_mod_cast h2)
  omega

theorem hintCell_mem {g : Grid} {x : ℚ} (hx0 : 0 ≤ x) (hx1 : x < 1)
    (hne : emptyCellsList g ≠ []) : hintCell g x ∈ emptyCellsList g := by
  have hlen : 0 < (emptyCellsList g).length := List.length_pos.mpr hne
  rw [hintCell, hintIndex, List.getD_eq_getElem _ _ (floor_mul_lt hx0 hx1 hlen)]
  exact List.getElem_mem _

/-- C3: with at least one empty cell, `grantHint` reveals a coordinate
whose player-grid value is `0` at call time and the revealed value is
the solution's value at that coordinate; with no empty cell it reports
the no-empty-cells signal and never a coordinate. -/
theorem c3_grantHint_spec (g sol : Grid) (x : ℚ) (hx0 : 0 ≤ x) (hx1 : x < 1) :
    ((∃ r c, r < 9 ∧ c < 9 ∧ cell g r c = 0) →
      ∃ r c, r < 9 ∧ c < 9 ∧ cell g r c = 0 ∧
        (grantHint g sol x).1 = some ((r, c), cell sol r c)) ∧
    ((∀ r c, r < 9 → c < 9 → cell g r c ≠ 0) → (grantHint g sol x).1 = none) := by
  constructor
  · rintro ⟨r, c, hr, hc, h0⟩
    have hne : emptyCellsList g ≠ [] := by
      intro hnil
      have hmem : (r, c) ∈ emptyCellsList g := mem_emptyCellsList.mpr ⟨hr, hc, h0⟩
      rw [hnil] at hmem
      exact List.not_mem_nil _ hmem
    have hcond : ¬((emptyCellsList g).isEmpty = true) := by
      rw [List.isEmpty_iff]
      exact hne
    obtain ⟨h1, h2, h3⟩ := mem_emptyCellsList.mp (hintCell_mem hx0 hx1 hne)
    refine ⟨(hintCell g x).1, (hintCell g x).2, h1, h2, h3, ?_⟩
    rw [grantHint, if_neg hcond]
  · intro hfull
    have hnil : emptyCellsList g = [] := by
      rcases he : emptyCellsList g with _ | ⟨p, t⟩
      · rfl
      · have hmem : p ∈ emptyCellsList g := by
          rw [he]; exact List.mem_cons_self p t
        obtain ⟨h1, h2, h3⟩ := mem_emptyCellsList.mp hmem
        exact absurd h3 (hfull p.1 p.2 h1 h2)
    rw [grantHint, if_pos (by rw [List.isEmpty_iff]; exact hnil)]

/-- Witness for C3: on `patternGrid` with cell (0,0) blanked, the hint
(RNG value 0) reveals (0,0) with the solution value 1; on the full
`patternGrid` it reports the no-empty-cells signal. -/
theorem c3_witness :
    (∃ r c, r < 9 ∧ c < 9 ∧ cell (setCell patternGrid 0 0 0) r c = 0 ∧
      (grantHint (setCell patternGrid 0 0 0) patternGrid 0).1 =
        some ((r, c), cell patternGrid r c)) ∧
    (grantHint patternGrid patternGrid 0).1 = none :=
  ⟨(c3_grantHint_spec (setCell patternGrid 0 0 0) patternGrid 0 (by norm_num)
      (by norm_num)).1 ⟨0, 0, by decide, by decide, by decide⟩,
   (c3_grantHint_spec patternGrid patternGrid 0 (by norm_num) (by norm_num)).2
     (fun r c hr hc => by have := patternGrid_bounds r hr c hc; omega)⟩

theorem grantHint_zero_eval (g sol : Grid) (p : Nat × Nat)
    (he : emptyCellsList g = [p]) :
    grantHint g sol 0 =
      (some (p, cell sol p.1 p.2), setCell g p.1 p.2 (cell sol p.1 p.2)) := by
  rw [grantHint, hintCell, hintIndex, he]
  norm_num

/-- C7 counterexample: the claim says the hint operation never mutates
the player grid, but `grantHint` writes the revealed solution value into
`this.grid`: on `patternGrid` with (0,0) blanked, cell (0,0) changes
from 0 to 1. -/
theorem c7_counterexample :
    cell (grantHint (setCell patternGrid 0 0 0) patternGrid 0).2 0 0 ≠
      cell (setCell patternGrid 0 0 0) 0 0 := by
  rw [grantHint_zero_eval (setCell patternGrid 0 0 0) patternGrid (0, 0) (by decide)]
  decide

/-- C7 (amended): `grantHint` mutates exactly the selected cell: after a
successful hint the revealed coordinate holds the solution's value and
every other cell is unchanged; when there is no empty cell the grid is
returned unchanged. -/
theorem c7_grantHint_frame (g sol : Grid) (x : ℚ) (hs : Shape g)
    (hx0 : 0 ≤ x) (hx1 : x < 1) :
    ((∀ r c, r < 9 → c < 9 → cell g r c ≠ 0) → (grantHint g sol x).2 = g) ∧
    (∀ p v, (grantHint g sol x).1 = some (p, v) →
      cell (grantHint g sol x).2 p.1 p.2 = v ∧
      ∀ r c, (r, c) ≠ p → cell (grantHint g sol x).2 r c = cell g r c) := by
  by_cases hempty : (emptyCellsList g).isEmpty = true
  · constructor
    · intro _
      rw [grantHint, if_pos hempty]
    · intro p v h
      rw [grantHint, if_pos hempty] at h
      exact Option.noConfusion h
  · have hne : emptyCellsList g ≠ [] := by
      intro h
      exact hempty (List.isEmpty_iff.mpr h)
    obtain ⟨h1, h2, _⟩ := mem_emptyCellsList.mp (hintCell_mem hx0 hx1 hne)
    constructor
    · intro hfull
      exact absurd (mem_emptyCellsList.mp (hintCell_mem hx0 hx1 hne)).2.2
        (hfull (hintCell g x).1 (hintCell g x).2 h1 h2)
    · intro p v h
      rw [grantHint, if_neg hempty] at h
      simp only [Prod.mk.injEq, Option.some.injEq] at h
      obtain ⟨hp, hv⟩ := h
      constructor
      · rw [grantHint, if_neg hempty]
        simp only
        rw [← hp, ← hv]
        exact cell_setCell_self g _ _ _ hs h1 h2
      · intro r c hrc
        rw [grantHint, if_neg hempty]
        simp only
        exact cell_setCell_other g _ _ _ r c (by rw [hp]; exact hrc)

/-- Witness for the amended C7: the hint on `patternGrid` with (0,0)
blanked writes 1 at (0,0) and leaves cell (0,1) unchanged. -/
theorem c7_witness :
    cell (grantHint (setCell patternGrid 0 0 0) patternGrid 0).2 0 0 = 1 ∧
    cell (grantHint (setCell patternGrid 0 0 0) patternGrid 0).2 0 1 =
      cell (setCell patternGrid 0 0 0) 0 1 := by
  have h := (c7_grantHint_frame (setCell patternGrid 0 0 0) patternGrid 0
    (by constructor <;> decide) (by norm_num) (by norm_num)).2
    ((0, 0)) 1 (by
      rw [grantHint_zero_eval (setCell patternGrid 0 0 0) patternGrid (0, 0) (by decide)]
      decide)
  exact ⟨h.1, h.2 0 1 (by decide)⟩

/-! ### The puzzle carver (C2, C8, C10) -/

/-- The carving invariant: the recorded keys are distinct, in range,
were non-zero in the solution, and the working grid is the solution
with exactly the recorded cells cleared. -/
def CarveInv (sol g : Grid) (ks : List (Nat × Nat)) : Prop :=
  ks.Nodup ∧
  (∀ p ∈ ks, p.1 < 9 ∧ p.2 < 9 ∧ cell sol p.1 p.2 ≠ 0) ∧
  (∀ r c, r < 9 → c < 9 →
    (((r, c) ∈ ks → cell g r c = 0) ∧ ((r, c) ∉ ks → cell g r c = cell sol r c)))

theorem carveInv_init (sol : Grid) : CarveInv sol sol [] := by
  refine ⟨List.nodup_nil, ?_, ?_⟩
  · intro p hp
    exact absurd hp (List.not_mem_nil p)
  · intro r c _ _
    exact ⟨fun hmem => absurd hmem (List.not_mem_nil _), fun _ => rfl⟩

theorem carveInv_step {sol g : Grid} {ks : List (Nat × Nat)} {r c : Nat}
    (hs : Shape g) (hr : r < 9) (hc : c < 9)
    (hinv : CarveInv sol g ks) (hnz : cell g r c ≠ 0) (hnew : (r, c) ∉ ks) :
    CarveInv sol (setCell g r c 0) ((r, c) :: ks) := by
  obtain ⟨hnd, hks, hgrid⟩ := hinv
  refine ⟨List.nodup_cons.mpr ⟨hnew, hnd⟩, ?_, ?_⟩
  · intro p hp
    rcases List.mem_cons.mp hp with h | h
    · subst h
      refine ⟨hr, hc, ?_⟩
      rw [← (hgrid r c hr hc).2 hnew]
      exact hnz
    · exact hks p h
  · intro r2 c2 hr2 hc2
    constructor
    · intro hmem
      rcases List.mem_cons.mp hmem with h | h
      · have e1 : r2 = r := congrArg Prod.fst h
        have e2 : c2 = c := congrArg Prod.snd h
        rw [e1, e2]
        exact cell_setCell_self g r c 0 hs hr hc
      · have hne : ((r2, c2) : Nat × Nat) ≠ (r, c) := by
          intro he
          rw [he] at h
          exact hnew h
        rw [cell_setCell_other g r c 0 r2 c2 hne]
        exact (hgrid r2 c2 hr2 hc2).1 h
    · intro hmem
      have hne : ((r2, c2) : Nat × Nat) ≠ (r, c) := by
        intro he
        exact hmem (he ▸ List.mem_cons_self _ _)
      rw [cell_setCell_other g r c 0 r2 c2 hne]
      exact (hgrid r2 c2 hr2 hc2).2 (fun h => hmem (List.mem_cons_of_mem _ h))

theorem carveLoop_invariant (target : Nat) (draws : Nat → Nat × Nat)
    (hdraws : ∀ k, (draws k).1 < 9 ∧ (draws k).2 < 9) (sol : Grid) :
    ∀ fuel k g ks g2 ks2, Shape g → CarveInv sol g ks → ks.length ≤ target →
      carveLoop target draws fuel k g ks ks.length = some (g2, ks2) →
      Shape g2 ∧ CarveInv sol g2 ks2 ∧ ks2.length = target := by
  intro fuel
  induction fuel with
  | zero =>
    intro k g ks g2 ks2 hs hinv hle h
    rw [carveLoop] at h
    by_cases hlt : ks.length < target
    · rw [if_pos hlt] at h
      exact Option.noConfusion h
    · rw [if_neg hlt] at h
      obtain ⟨h1, h2⟩ := Prod.mk.injEq .. ▸ Option.some_inj.mp h
      rw [← h1, ← h2]
      exact ⟨hs, hinv, by omega⟩
  | succ fuel ih =>
    intro k g ks g2 ks2 hs hinv hle h
    rw [carveLoop] at h
    by_cases hlt : ks.length < target
    · rw [if_pos hlt] at h
      by_cases hacc : cell g (draws k).1 (draws k).2 ≠ 0 ∧ draws k ∉ ks
      · rw [if_pos hacc] at h
        have hstep : CarveInv sol (setCell g (draws k).1 (draws k).2 0) (draws k :: ks) := by
          have hst := carveInv_step hs (hdraws k).1 (hdraws k).2 hinv hacc.1 hacc.2
          simpa using hst
        have hsh := shape_setCell g (draws k).1 (draws k).2 0 hs
        have hlen : (draws k :: ks).length = ks.length + 1 := by
          simp
        rw [← hlen] at h
        exact ih (k + 1) _ _ g2 ks2 hsh hstep (by omega) h
      · rw [if_neg hacc] at h
        exact ih (k + 1) g ks g2 ks2 hs hinv hle h
    · rw [if_neg hlt] at h
      obtain ⟨h1, h2⟩ := Prod.mk.injEq .. ▸ Option.some_inj.mp h
      rw [← h1, ← h2]
      exact ⟨hs, hinv, by omega⟩

/-- C2: whenever the carving loop of `generatePuzzle` finishes, it has
cleared exactly `cellsToRemove difficulty` (40/50/60) distinct cells,
each of which held a non-zero value immediately prior to removal; in the
resulting grid every non-zero cell equals the corresponding solution
cell, and the zero cells are exactly the carved positions. -/
theorem c2_generatePuzzle_carve_spec (difficulty : String) (solution : Grid)
    (draws : Nat → Nat × Nat) (fuel : Nat) (g2 : Grid) (ks : List (Nat × Nat))
    (hs : Shape solution)
    (hcomplete : ∀ r c, r < 9 → c < 9 → cell solution r c ≠ 0)
    (hdraws : ∀ k, (draws k).1 < 9 ∧ (draws k).2 < 9)
    (h : generatePuzzleCarve difficulty solution draws fuel = some (g2, ks)) :
    ks.Nodup ∧ ks.length = cellsToRemove difficulty ∧
    (∀ p ∈ ks, cell solution p.1 p.2 ≠ 0) ∧
    (∀ r c, r < 9 → c < 9 →
      ((cell g2 r c = 0 ↔ (r, c) ∈ ks) ∧
       (cell g2 r c ≠ 0 → cell g2 r c = cell solution r c))) := by
  rw [generatePuzzleCarve] at h
  have hinv := carveLoop_invariant (cellsToRemove difficulty) draws hdraws solution
    fuel 0 solution [] g2 ks hs (carveInv_init solution) (by simp) (by simpa using h)
  obtain ⟨-, ⟨hnd, hks, hgrid⟩, hlen⟩ := hinv
  refine ⟨hnd, hlen, fun p hp => (hks p hp).2.2, ?_⟩
  intro r c hr hc
  constructor
  · constructor
    · intro h0
      by_contra hmem
      rw [(hgrid r c hr hc).2 hmem] at h0
      exact hcomplete r c hr hc h0
    · exact (hgrid r c hr hc).1
  · intro hnz
    have hmem : ((r, c) : Nat × Nat) ∉ ks := fun hm => hnz ((hgrid r c hr hc).1 hm)
    exact (hgrid r c hr hc).2 hmem

theorem sweepDraws_range (k : Nat) : (sweepDraws k).1 < 9 ∧ (sweepDraws k).2 < 9 := by
  rw [sweepDraws]
  constructor
  · exact Nat.mod_lt _ (by omega)
  · exact Nat.mod_lt _ (by omega)

theorem patternGrid_complete (r c : Nat) (hr : r < 9) (hc : c < 9) :
    cell patternGrid r c ≠ 0 := by
  have := patternGrid_bounds r hr c hc
  omega

/-- Witness for C2: an "easy" carve of `patternGrid` driven by the
row-major sweep succeeds within 41 draws and clears exactly 40 distinct
previously non-zero cells. -/
theorem c2_witness :
    ∃ g2 ks, generatePuzzleCarve "easy" patternGrid sweepDraws 41 = some (g2, ks) ∧
      ks.Nodup ∧ ks.length = cellsToRemove "easy" ∧
      ∀ p ∈ ks, cell patternGrid p.1 p.2 ≠ 0 := by
  rcases hres : generatePuzzleCarve "easy" patternGrid sweepDraws 41 with _ | ⟨g2, ks⟩
  · exact absurd hres (by decide)
  · have h := c2_generatePuzzle_carve_spec "easy" patternGrid sweepDraws 41 g2 ks
      (by constructor <;> decide) patternGrid_complete sweepDraws_range hres
    exact ⟨g2, ks, rfl, h.1, h.2.1, h.2.2.1⟩

/-- C10: any difficulty string other than `"easy"` and `"medium"` —
including unrecognized values — falls through both conditionals to the
`hard` count of 60; no validation is performed and the carve behaves
exactly as for `"hard"`. -/
theorem c10_unknown_difficulty_behaves_hard (d : String)
    (h1 : d ≠ "easy") (h2 : d ≠ "medium") :
    cellsToRemove d = 60 ∧ cellsToRemove d = cellsToRemove "hard" ∧
    ∀ solution draws fuel,
      generatePuzzleCarve d solution draws fuel =
        generatePuzzleCarve "hard" solution draws fuel := by
  have hd : cellsToRemove d = 60 := by
    rw [cellsToRemove, if_neg h1, if_neg h2]
  have hh : cellsToRemove "hard" = 60 := by decide
  refine ⟨hd, by rw [hd, hh], ?_⟩
  intro solution draws fuel
  rw [generatePuzzleCarve, generatePuzzleCarve, hd, hh]

/-- Witness for C10: the malformed difficulty `"daily"` is carved with
the hard count of 60 and behaves exactly as `"hard"`. -/
theorem c10_witness :
    cellsToRemove "daily" = 60 ∧
    generatePuzzleCarve "daily" patternGrid sweepDraws 41 =
      generatePuzzleCarve "hard" patternGrid sweepDraws 41 :=
  ⟨(c10_unknown_difficulty_behaves_hard "daily" (by decide) (by decide)).1,
   (c10_unknown_difficulty_behaves_hard "daily" (by decide) (by decide)).2.2
     patternGrid sweepDraws 41⟩

/-! ### Date seeding (C9) -/

theorem getDailySeedLoop_eq (s : List Char) :
    ∀ n i hash, s.length - i = n →
      getDailySeedLoop s i hash = (s.drop i).foldl hashStep hash := by
  intro n
  induction n with
  | zero =>
    intro i hash hn
    rw [getDailySeedLoop, if_neg (by omega), List.drop_eq_nil_of_le (by omega)]
    rfl
  | succ m ih =>
    intro i hash hn
    have hi : i < s.length := by omega
    rw [getDailySeedLoop, if_pos hi, ih (i + 1) _ (by omega),
      List.drop_eq_getElem_cons hi, List.foldl_cons, List.getD_eq_getElem _ _ hi]

/-- C9: for every date string, `getDailySeed`'s index loop computes the
left fold of `hash = (hash * 31 + charCode) mod 2^32` over the
characters in order starting from 0 (the spec's `seedFromDateString`),
and the seed is a deterministic function of the string. -/
theorem c9_getDailySeed_hash (s : String) :
    getDailySeedOf s = seedFromDateStringSpec s ∧
    ∀ t : String, t = s → getDailySeedOf t = getDailySeedOf s := by
  constructor
  · rw [getDailySeedOf, seedFromDateStringSpec,
      getDailySeedLoop_eq s.data s.data.length 0 0 (by omega), List.drop_zero]
  · intro t ht
    rw [ht]

/-- Witness for C9 at the spec's concrete scenario date: the loop agrees
with the fold, which evaluates to 3681625664. -/
theorem c9_witness :
    getDailySeedOf "2024-01-01" = seedFromDateStringSpec "2024-01-01" ∧
    getDailySeedOf "2024-01-01" = 3681625664 := by
  refine ⟨(c9_getDailySeed_hash "2024-01-01").1, ?_⟩
  rw [(c9_getDailySeed_hash "2024-01-01").1]
  decide

/-! ### Termination of the carving loop (C8) -/

/-- C8 counterexample: the claim asserts termination for every stream of
RNG values in [0,1), but the RNG stream that constantly returns a value
below 1/9 draws (0,0) forever: after the first removal every draw is
rejected and the loop never exits — no fuel suffices.  (`patternGrid` is
a complete solution and the constant stream is a legitimate value
stream.) -/
theorem c8_counterexample :
    ¬ ∃ fuel g2 ks,
        generatePuzzleCarve "easy" patternGrid (fun _ => ((0 : Nat), (0 : Nat))) fuel =
          some (g2, ks) := by
  have hstuck : ∀ fuel k,
      carveLoop 40 (fun _ => ((0 : Nat), (0 : Nat))) fuel k
        (setCell patternGrid 0 0 0) [(0, 0)] 1 = none := by
    intro fuel
    induction fuel with
    | zero =>
      intro k
      rw [carveLoop, if_pos (by omega)]
    | succ fuel ih =>
      intro k
      rw [carveLoop, if_pos (by omega),
        if_neg (by rintro ⟨-, hmem⟩; exact hmem (List.mem_cons_self _ _))]
      exact ih (k + 1)
  rintro ⟨fuel, g2, ks, h⟩
  rw [generatePuzzleCarve] at h
  have heasy : cellsToRemove "easy" = 40 := by decide
  rw [heasy] at h
  cases fuel with
  | zero =>
    rw [carveLoop, if_pos (by omega)] at h
    exact Option.noConfusion h
  | succ fuel =>
    rw [carveLoop, if_pos (by omega),
      if_pos ⟨by decide, List.not_mem_nil _⟩, hstuck fuel 1] at h
    exact Option.noConfusion h

theorem carveLoop_terminates_aux (target : Nat) (draws : Nat → Nat × Nat)
    (hdraws : ∀ k, (draws k).1 < 9 ∧ (draws k).2 < 9)
    (hfair : ∀ p : Nat × Nat, p.1 < 9 → p.2 < 9 → ∀ k, ∃ k2, k ≤ k2 ∧ draws k2 = p)
    (htarget : target ≤ 81) (sol : Grid)
    (hcomplete : ∀ r c, r < 9 → c < 9 → cell sol r c ≠ 0) :
    ∀ d k g ks, Shape g → CarveInv sol g ks → ks.length ≤ target →
      target - ks.length = d →
      ∃ fuel g2 ks2, carveLoop target draws fuel k g ks ks.length = some (g2, ks2) := by
  intro d
  induction d with
  | zero =>
    intro k g ks _ _ _ hd
    refine ⟨0, g, ks, ?_⟩
    rw [carveLoop, if_neg (by omega)]
  | succ d ihd =>
    intro k g ks hs hinv hle hd
    have hlt : ks.length < target := by omega
    -- an in-range coordinate outside the removed set exists
    obtain ⟨p, hp1, hp2, hpks⟩ : ∃ p : Nat × Nat, p.1 < 9 ∧ p.2 < 9 ∧ p ∉ ks := by
      by_contra hall
      push_neg at hall
      have hsub : (Finset.range 9 ×ˢ Finset.range 9) ⊆ ks.toFinset := by
        intro q hq
        simp only [Finset.mem_product, Finset.mem_range] at hq
        exact List.mem_toFinset.mpr (hall q hq.1 hq.2)
      have hcard := Finset.card_le_card hsub
      rw [Finset.card_product, Finset.card_range] at hcard
      have htf : ks.toFinset.card = ks.length := List.toFinset_card_of_nodup hinv.1
      omega
    have hcell : cell g p.1 p.2 ≠ 0 := by
      rw [(hinv.2.2 p.1 p.2 hp1 hp2).2 (by simpa using hpks)]
      exact hcomplete p.1 p.2 hp1 hp2
    -- accepting any acceptable draw lets the outer induction finish
    have haccept : ∀ kk, cell g (draws kk).1 (draws kk).2 ≠ 0 → draws kk ∉ ks →
        ∃ fuel g2 ks2,
          carveLoop target draws fuel kk g ks ks.length = some (g2, ks2) := by
      intro kk hc hm
      have hstep : CarveInv sol (setCell g (draws kk).1 (draws kk).2 0) (draws kk :: ks) := by
        have hst := carveInv_step hs (hdraws kk).1 (hdraws kk).2 hinv hc
          (by simpa using hm)
        simpa using hst
      obtain ⟨fuel, g2, ks2, hf⟩ := ihd (kk + 1) _ (draws kk :: ks)
        (shape_setCell g _ _ 0 hs) hstep (by simp; omega) (by simp; omega)
      refine ⟨fuel + 1, g2, ks2, ?_⟩
      rw [carveLoop, if_pos (by omega), if_pos ⟨hc, hm⟩]
      have hlen : (draws kk :: ks).length = ks.length + 1 := by simp
      rw [← hlen]
      exact hf
    -- the fair stream draws an acceptable coordinate after finitely many steps
    have inner : ∀ m kc, (∃ kk, kc ≤ kk ∧ kk - kc ≤ m ∧
        cell g (draws kk).1 (draws kk).2 ≠ 0 ∧ draws kk ∉ ks) →
        ∃ fuel g2 ks2,
          carveLoop target draws fuel kc g ks ks.length = some (g2, ks2) := by
      intro m
      induction m with
      | zero =>
        rintro kc ⟨kk, hkk1, hkk2, hkkc, hkkm⟩
        have hkeq : kk = kc := by omega
        rw [hkeq] at hkkc hkkm
        exact haccept kc hkkc hkkm
      | succ m ihm =>
        rintro kc ⟨kk, hkk1, hkk2, hkkc, hkkm⟩
        by_cases hacc : cell g (draws kc).1 (draws kc).2 ≠ 0 ∧ draws kc ∉ ks
        · exact haccept kc hacc.1 hacc.2
        · have hkkne : kk ≠ kc := by
            intro he
            rw [he] at hkkc hkkm
            exact hacc ⟨hkkc, hkkm⟩
          obtain ⟨fuel, g2, ks2, hf⟩ := ihm (kc + 1) ⟨kk, by omega, by omega, hkkc, hkkm⟩
          refine ⟨fuel + 1, g2, ks2, ?_⟩
          rw [carveLoop, if_pos (by omega), if_neg hacc]
          exact hf
    obtain ⟨k2, hk2, hdk2⟩ := hfair p hp1 hp2 k
    exact inner (k2 - k) k ⟨k2, hk2, by omega, by rw [hdk2]; exact hcell,
      by rw [hdk2]; exact hpks⟩

theorem cellsToRemove_le (difficulty : String) : cellsToRemove difficulty ≤ 81 := by
  rw [cellsToRemove]
  by_cases h1 : difficulty = "easy"
  · rw [if_pos h1]; omega
  · rw [if_neg h1]
    by_cases h2 : difficulty = "medium"
    · rw [if_pos h2]; omega
    · rw [if_neg h2]; omega

/-- C8 (amended): for every complete 9×9 solution, every difficulty, and
every coordinate stream that keeps drawing every cell beyond any index
(true of any fair RNG, but not of every value stream in [0,1)), the
carving loop terminates: some finite number of iterations reaches the
target, having cleared exactly `cellsToRemove difficulty` distinct
previously non-zero cells. -/
theorem c8_carve_terminates_fair (difficulty : String) (solution : Grid)
    (draws : Nat → Nat × Nat) (hs : Shape solution)
    (hcomplete : ∀ r c, r < 9 → c < 9 → cell solution r c ≠ 0)
    (hdraws : ∀ k, (draws k).1 < 9 ∧ (draws k).2 < 9)
    (hfair : ∀ p : Nat × Nat, p.1 < 9 → p.2 < 9 → ∀ k, ∃ k2, k ≤ k2 ∧ draws k2 = p) :
    ∃ fuel g2 ks,
      generatePuzzleCarve difficulty solution draws fuel = some (g2, ks) ∧
      ks.Nodup ∧ ks.length = cellsToRemove difficulty ∧
      ∀ p ∈ ks, cell solution p.1 p.2 ≠ 0 := by
  obtain ⟨fuel, g2, ks2, hf⟩ := carveLoop_terminates_aux (cellsToRemove difficulty)
    draws hdraws hfair (cellsToRemove_le difficulty) solution hcomplete
    (cellsToRemove difficulty) 0 solution [] hs (carveInv_init solution)
    (by simp) (by simp)
  have hf0 : carveLoop (cellsToRemove difficulty) draws fuel 0 solution [] 0 =
      some (g2, ks2) := by
    simpa using hf
  have hinv := carveLoop_invariant (cellsToRemove difficulty) draws hdraws solution
    fuel 0 solution [] g2 ks2 hs (carveInv_init solution) (by simp) (by simpa using hf)
  exact ⟨fuel, g2, ks2, by rw [generatePuzzleCarve]; exact hf0, hinv.2.1.1,
    hinv.2.2, fun p hp => (hinv.2.1.2.1 p hp).2.2⟩

theorem sweepDraws_fair (p : Nat × Nat) (h1 : p.1 < 9) (h2 : p.2 < 9) (k : Nat) :
    ∃ k2, k ≤ k2 ∧ sweepDraws k2 = p := by
  refine ⟨81 * k + 9 * p.1 + p.2, by omega, ?_⟩
  rw [sweepDraws]
  cases p with
  | mk a b =>
    simp only at h1 h2 ⊢
    rw [Prod.mk.injEq]
    constructor
    · omega
    · omega

/-- Witness for the amended C8: the row-major sweep stream is fair, so
the "easy" carve of `patternGrid` terminates with exactly 40 removals. -/
theorem c8_witness :
    ∃ fuel g2 ks,
      generatePuzzleCarve "easy" patternGrid sweepDraws fuel = some (g2, ks) ∧
      ks.Nodup ∧ ks.length = cellsToRemove "easy" ∧
      ∀ p ∈ ks, cell patternGrid p.1 p.2 ≠ 0 :=
  c8_carve_terminates_fair "easy" patternGrid sweepDraws
    (by constructor <;> decide) patternGrid_complete sweepDraws_range sweepDraws_fair

end Sudoku
